import Mathlib

/-!
Verification of the connection-supervision and stream-framing engine of the
amshan repository (file src/han/meter_connection.py), via a shallow embedding.

Bytes are modelled as natural numbers, byte strings as lists of naturals,
timestamps as integer seconds, and queues as lists (enqueue appends at the
right).  Stateful Python objects become immutable Lean structures with
explicit state-passing functions that mirror the Python method bodies
statement by statement.
-/

namespace MeterConnection

/-- A meter message as seen by this core: a validity flag, an optional payload
and an optional raw-bytes view (class MeterMessageBase of han.common, which
only these three accessors are consumed from here). -/
structure MeterMessage where
  is_valid : Bool
  payload : Option (List Nat)
  as_bytes : Option (List Nat)
deriving Repr, DecidableEq

/-! ## ExponentialBackOff (meter_connection.py lines 49-70) -/

/-- State of class ExponentialBackOff: the private delay accumulator and the
configurable maximum. -/
structure ExponentialBackOff where
  delay : Nat
  max_delay : Nat
deriving Repr, DecidableEq

/-- BackOffStrategy.DEFAULT_MAX_DELAY_SEC. -/
def DEFAULT_MAX_DELAY_SEC : Nat := 60

/-- ExponentialBackOff.__init__: delay 0, max delay 60. -/
def ExponentialBackOff.init : ExponentialBackOff :=
  { delay := 0, max_delay := DEFAULT_MAX_DELAY_SEC }

/-- ExponentialBackOff.failure: double the delay, then set it to 1 if it is 0. -/
def ExponentialBackOff.failure (b : ExponentialBackOff) : ExponentialBackOff :=
  let d := b.delay * 2
  { b with delay := if d = 0 then 1 else d }

/-- ExponentialBackOff.reset: delay back to 0. -/
def ExponentialBackOff.reset (b : ExponentialBackOff) : ExponentialBackOff :=
  { b with delay := 0 }

/-- ExponentialBackOff.current_delay_sec: the delay, capped at max_delay. -/
def ExponentialBackOff.current_delay_sec (b : ExponentialBackOff) : Nat :=
  if b.delay < b.max_delay then b.delay else b.max_delay

/-- n consecutive failure() calls. -/
def ExponentialBackOff.failN (b : ExponentialBackOff) : Nat → ExponentialBackOff
  | 0 => b
  | n + 1 => (b.failN n).failure

/-! ## SmartMeterMessagePayloadProtocol.message_received (lines 275-291)

The destination queue is a list of payloads; put_nowait appends. -/

/-- SmartMeterMessagePayloadProtocol.message_received: enqueue the payload only
when the message is valid and the payload is neither missing nor empty. -/
def message_received_payload (queue : List (List Nat)) (message : MeterMessage) :
    List (List Nat) :=
  let payload := message.payload
  if message.is_valid then
    match payload with
    | some p => if 0 < p.length then queue ++ [p] else queue
    | none => queue
  else queue

/-! ## ConnectionManager (lines 299-423)

A connection produced by the factory is abstracted to a numeric identifier.
Timestamps are integer seconds (datetime.datetime restricted to whole
seconds, which the claims under verification only need). -/

/-- ConnectionManager.DEFAULT_CONNECTION_LOST_BACK_OFF_THRESHOLD. -/
def DEFAULT_CONNECTION_LOST_BACK_OFF_THRESHOLD : Int := 5

/-- ConnectionManager.DEFAULT_CONNECTION_LOST_BACK_OFF_SLEEP_SEC. -/
def DEFAULT_CONNECTION_LOST_BACK_OFF_SLEEP_SEC : Int := 5

/-- Mutable state of a ConnectionManager instance. -/
structure ConnectionManager where
  connection : Option Nat
  is_closing : Bool
  back_off_connect_error : ExponentialBackOff
  connection_lost_back_off_threshold : Int
  connection_lost_back_off_sleep_sec : Int
  connection_lost_last_time : Option Int
  connection_lost_sleep_before_reconnect : Bool
deriving Repr, DecidableEq

/-- The field assignments of ConnectionManager.__init__ (run only after the
factory check passed).  Note the source initialises the threshold from the
SLEEP constant, not the THRESHOLD constant; both are 5. -/
def ConnectionManager.init : ConnectionManager :=
  { connection := none
    is_closing := false
    back_off_connect_error := ExponentialBackOff.init
    connection_lost_back_off_threshold := DEFAULT_CONNECTION_LOST_BACK_OFF_SLEEP_SEC
    connection_lost_back_off_sleep_sec := DEFAULT_CONNECTION_LOST_BACK_OFF_SLEEP_SEC
    connection_lost_last_time := none
    connection_lost_sleep_before_reconnect := false }

/-- ConnectionManager.__init__: raise ValueError (modelled as none) when the
supplied factory is not a coroutine function, before any field is assigned;
otherwise return the fully initialised state. -/
def mk_connection_manager (factory_is_coroutine_function : Bool) :
    Option ConnectionManager :=
  if ¬ factory_is_coroutine_function then none
  else some ConnectionManager.init

/-- ConnectionManager._update_connection_lost_circuit_breaker at current time
now: when a previous disconnect timestamp exists, set the recent-disconnect
flag from the elapsed-time comparison; always store the new timestamp. -/
def update_connection_lost_circuit_breaker (m : ConnectionManager) (now : Int) :
    ConnectionManager :=
  match m.connection_lost_last_time with
  | some last =>
    { m with
      connection_lost_sleep_before_reconnect :=
        decide (now - last < m.connection_lost_back_off_threshold)
      connection_lost_last_time := some now }
  | none => { m with connection_lost_last_time := some now }

/-- ConnectionManager._get_back_off_time: 0 unless there is a connect-error
delay or the recent-disconnect flag is set, in which case the maximum of the
connect-error delay and the conditional reconnect sleep. -/
def get_back_off_time (m : ConnectionManager) : Int :=
  let current_connect_error_delay : Int :=
    (m.back_off_connect_error.current_delay_sec : Int)
  if 0 < current_connect_error_delay ∨ m.connection_lost_sleep_before_reconnect then
    let reconnect_sleep : Int :=
      if m.connection_lost_sleep_before_reconnect then
        m.connection_lost_back_off_sleep_sec
      else 0
    max current_connect_error_delay reconnect_sleep
  else 0

/-- Outcome of awaiting the connection factory: a connection, a
CancelledError, or any other exception. -/
inductive FactoryOutcome where
  | ok : Nat → FactoryOutcome
  | cancelled : FactoryOutcome
  | failed : FactoryOutcome
deriving Repr, DecidableEq

/-- The external events one run of _try_connect can encounter: whether a
cancellation arrives during the back-off sleep, and what the factory does. -/
structure TryConnectEnv where
  cancel_during_sleep : Bool
  factory : FactoryOutcome
deriving Repr, DecidableEq

/-- ConnectionManager._try_connect.  The boolean result records whether a
CancelledError propagated out of the call (the source re-raises it; any
other exception from the factory is swallowed after recording a back-off
failure).  Cancellation during the sleep is only possible when a positive
sleep actually happens. -/
def try_connect (m : ConnectionManager) (env : TryConnectEnv) :
    ConnectionManager × Bool :=
  let sleep_time := get_back_off_time m
  if 0 < sleep_time ∧ env.cancel_during_sleep then (m, true)
  else if m.is_closing then (m, false)
  else
    match env.factory with
    | .ok c =>
      ({ m with
          connection := some c
          back_off_connect_error := m.back_off_connect_error.reset }, false)
    | .cancelled => (m, true)
    | .failed =>
      ({ m with
          connection := none
          back_off_connect_error := m.back_off_connect_error.failure }, false)

/-! ## SmartMeterBaseProtocol.connection_lost (lines 135-173)

The transport is abstracted to whether its close() call raises; the done
future is an Option Unit that set_result fills, raising (modelled as none
for the whole call) when already filled. -/

/-- A transport as consumed by connection_lost: only its close() behaviour
matters. -/
structure MTransport where
  close_raises : Bool
deriving Repr, DecidableEq

/-- The protocol state consumed by connection_lost. -/
structure ProtocolState where
  transport : Option MTransport
  done : Option Unit
deriving Repr, DecidableEq

/-- SmartMeterBaseProtocol.connection_lost with argument exc (only its
presence matters, it is just logged).  If a transport is present its close()
is attempted; on success the transport reference is cleared, on failure the
exception is swallowed (the clearing is skipped because it sits after the
raising statement).  Finally the done future is set.  The result is some of
the new state on normal return, none if an exception escaped the call. -/
def connection_lost (s : ProtocolState) (exc : Bool) : Option ProtocolState :=
  let s1 :=
    match s.transport with
    | some t => if t.close_raises then s else { s with transport := none }
    | none => s
  match s1.done with
  | none => some { s1 with done := some () }
  | some _ => none

/-! ## SmartMeterBaseProtocol.data_received (lines 175-193)

A reader candidate (class MeterReaderBase) is a stateful object whose
read(data) consumes one chunk and returns the extracted messages.  A
deterministic reader is captured by the full history of chunks it has
consumed together with a pure emission function from that history to the
messages its latest read returns.  The protocol keeps the reader objects by
index: reader_candidates and selected_reader hold indices into readers, so
that a reader's state stays observable to the caller that supplied it even
after the candidate list is cleared (in Python the caller keeps aliases to
the reader objects). -/

/-- A reader candidate: its emission behaviour and the chunks consumed so
far. -/
structure MeterReader where
  emits : List (List Nat) → List MeterMessage
  hist : List (List Nat)

/-- MeterReaderBase.read: consume one chunk, return the new reader state and
the messages extracted from this chunk. -/
def MeterReader.read (r : MeterReader) (data : List Nat) :
    MeterReader × List MeterMessage :=
  let h := r.hist ++ [data]
  ({ r with hist := h }, r.emits h)

/-- Demultiplexer state of SmartMeterBaseProtocol: all reader objects, the
candidate indices still in play, and the selected reader index if any. -/
structure DemuxState where
  readers : List MeterReader
  reader_candidates : List Nat
  selected_reader : Option Nat

/-- The probing loop of data_received: feed the chunk to the candidates in
order; stop at the first candidate one of whose extracted messages is valid,
returning that winner's index together with all messages it extracted from
the chunk.  Candidates after the winner are not read. -/
def probe (data : List Nat) :
    List MeterReader → List Nat → List MeterReader × Option (Nat × List MeterMessage)
  | readers, [] => (readers, none)
  | readers, i :: rest =>
    match readers.get? i with
    | none => probe data readers rest
    | some r =>
      let rm := r.read data
      let readers1 := readers.set i rm.1
      if rm.2.any (fun m => m.is_valid) then (readers1, some (i, rm.2))
      else probe data readers1 rest

/-- SmartMeterBaseProtocol.data_received: with a selected reader, route the
chunk through it alone and emit every message it extracts; while probing,
run the candidates and, on a win, clear the candidate list, select the
winner and emit every message the winner extracted from this chunk.  The
second component collects the arguments of the message_received calls in
order. -/
def data_received (s : DemuxState) (data : List Nat) :
    DemuxState × List MeterMessage :=
  match s.selected_reader with
  | some i =>
    match s.readers.get? i with
    | some r =>
      let rm := r.read data
      ({ s with readers := s.readers.set i rm.1 }, rm.2)
    | none => (s, [])
  | none =>
    let pr := probe data s.readers s.reader_candidates
    match pr.2 with
    | some im =>
      ({ readers := pr.1, reader_candidates := [], selected_reader := some im.1 },
        im.2)
    | none => ({ s with readers := pr.1 }, [])

/-- Feed a sequence of chunks through data_received, collecting all emitted
messages in order. -/
def run_chunks (s : DemuxState) : List (List Nat) → DemuxState × List MeterMessage
  | [] => (s, [])
  | d :: ds =>
    let r1 := data_received s d
    let r2 := run_chunks r1.1 ds
    (r2.1, r1.2 ++ r2.2)

/-! ## Concrete fixtures used when evaluating the definitions -/

/-- A reader that reports one valid message from every chunk. -/
def always_valid_reader : MeterReader :=
  { emits := fun _ => [{ is_valid := true, payload := some [7], as_bytes := none }]
    hist := [] }

/-- A reader that reports one invalid message from every chunk. -/
def never_valid_reader : MeterReader :=
  { emits := fun _ => [{ is_valid := false, payload := none, as_bytes := none }]
    hist := [] }

/-- A freshly constructed protocol with two reader candidates, the first of
which validates immediately. -/
def demux_two_candidates : DemuxState :=
  { readers := [always_valid_reader, never_valid_reader]
    reader_candidates := [0, 1]
    selected_reader := none }

/-- A manager with a connect-error delay of 8 and the recent-disconnect flag
set with sleep constant 5. -/
def manager_delay8_recent : ConnectionManager :=
  { ConnectionManager.init with
    back_off_connect_error := { delay := 8, max_delay := 60 }
    connection_lost_sleep_before_reconnect := true
    connection_lost_back_off_sleep_sec := 5 }

/-- A manager whose next back-off sleep is positive (one connect failure
recorded). -/
def manager_one_failure : ConnectionManager :=
  { ConnectionManager.init with
    back_off_connect_error := ExponentialBackOff.init.failure }

/-! ## Helper lemmas -/

theorem if_lt_eq_min (a m : Nat) : (if a < m then a else m) = min a m := by
  split <;> omega

theorem failN_max_delay (b : ExponentialBackOff) (n : Nat) :
    (b.failN n).max_delay = b.max_delay := by
  induction n with
  | zero => rfl
  | succ n ih => simp [ExponentialBackOff.failN, ExponentialBackOff.failure, ih]

theorem failN_delay_of_zero (b : ExponentialBackOff) (hb : b.delay = 0) (n : Nat) :
    (b.failN (n + 1)).delay = 2 ^ n := by
  induction n with
  | zero => simp [ExponentialBackOff.failN, ExponentialBackOff.failure, hb]
  | succ n ih =>
    have h2 : (2 : Nat) ^ n * 2 ≠ 0 := by positivity
    show ((b.failN (n + 1)).failure).delay = 2 ^ (n + 1)
    simp [ExponentialBackOff.failure, ih, h2, Nat.pow_succ]

/-! ## Claim theorems -/

/-- Claim C3: for every n at least 1, after n consecutive failure calls on an
ExponentialBackOff starting from the initial state or from a reset state,
current_delay_sec equals min of 2 to the n minus 1 and the maximum delay,
the maximum defaulting to 60; and a reset call restores current_delay_sec
to 0. -/
theorem exponential_backoff_delay_formula (b : ExponentialBackOff) (n : Nat)
    (hn : 1 ≤ n) :
    ((ExponentialBackOff.init).failN n).current_delay_sec = min (2 ^ (n - 1)) 60 ∧
    ((b.reset).failN n).current_delay_sec = min (2 ^ (n - 1)) b.max_delay ∧
    (b.reset).current_delay_sec = 0 := by
  obtain ⟨k, rfl⟩ : ∃ k, n = k + 1 := ⟨n - 1, by omega⟩
  refine ⟨?_, ?_, ?_⟩
  · rw [ExponentialBackOff.current_delay_sec, failN_max_delay,
      failN_delay_of_zero _ rfl, if_lt_eq_min]
    rfl
  · rw [ExponentialBackOff.current_delay_sec, failN_max_delay,
      failN_delay_of_zero _ rfl, if_lt_eq_min]
    rfl
  · rw [ExponentialBackOff.current_delay_sec]
    simp [ExponentialBackOff.reset]

theorem exponential_backoff_delay_formula_witness :
    ((ExponentialBackOff.init).failN 3).current_delay_sec = min (2 ^ (3 - 1)) 60 ∧
    (((ExponentialBackOff.init).reset).failN 3).current_delay_sec =
      min (2 ^ (3 - 1)) ExponentialBackOff.init.max_delay ∧
    ((ExponentialBackOff.init).reset).current_delay_sec = 0 :=
  exponential_backoff_delay_formula ExponentialBackOff.init 3 (by decide)

/-- Claim C4: the payload-only protocol enqueues the payload exactly when the
message is valid and the payload is present and non-empty, and then it
enqueues exactly that payload; otherwise the queue is unchanged. -/
theorem payload_only_forwarding (queue : List (List Nat)) (m : MeterMessage) :
    (∀ p, m.payload = some p → m.is_valid = true → p ≠ [] →
      message_received_payload queue m = queue ++ [p]) ∧
    (m.is_valid = false ∨ m.payload = none ∨ m.payload = some [] →
      message_received_payload queue m = queue) := by
  constructor
  · intro p hp hv hne
    simp [message_received_payload, hp, hv, List.length_pos.mpr hne]
  · rintro (hv | hp | hp)
    · simp [message_received_payload, hv]
    · simp [message_received_payload, hp]
    · simp [message_received_payload, hp]

theorem payload_only_forwarding_witness :
    message_received_payload []
      { is_valid := true, payload := some [1, 2], as_bytes := none } = [[1, 2]] ∧
    message_received_payload []
      { is_valid := true, payload := some [], as_bytes := none } = [] ∧
    message_received_payload []
      { is_valid := false, payload := some [1, 2], as_bytes := none } = [] :=
  ⟨(payload_only_forwarding [] _).1 [1, 2] rfl rfl (by decide),
   (payload_only_forwarding [] _).2 (Or.inr (Or.inr rfl)),
   (payload_only_forwarding [] _).2 (Or.inl rfl)⟩

/-- Claim C5: the pre-connect sleep always equals the maximum of the
connect-error back-off delay and the conditional reconnect delay; in
particular with connect-error delay 8 and the recent-disconnect flag set
with sleep constant 5 the sleep is 8, not 13. -/
theorem back_off_time_is_max_combination :
    (∀ m : ConnectionManager,
      get_back_off_time m =
        max ((m.back_off_connect_error.current_delay_sec : Int))
          (if m.connection_lost_sleep_before_reconnect then
            m.connection_lost_back_off_sleep_sec
          else 0)) ∧
    get_back_off_time manager_delay8_recent = 8 ∧
    get_back_off_time manager_delay8_recent ≠ 13 := by
  refine ⟨?_, by decide, by decide⟩
  intro m
  have hd : (0 : Int) ≤ (m.back_off_connect_error.current_delay_sec : Int) :=
    Int.ofNat_nonneg _
  cases hf : m.connection_lost_sleep_before_reconnect
  · by_cases h0 : 0 < (m.back_off_connect_error.current_delay_sec : Int)
    · simp [get_back_off_time, hf, h0]
    · have hz : (m.back_off_connect_error.current_delay_sec : Int) = 0 :=
        le_antisymm (not_lt.mp h0) hd
      simp [get_back_off_time, hf, hz]
  · simp [get_back_off_time, hf]

/-- Claim C10: constructing a ConnectionManager raises ValueError exactly when
the factory is not a coroutine function, and then no manager state is
produced; otherwise every field is initialised to its documented default. -/
theorem manager_init_factory_check :
    (∀ b : Bool, mk_connection_manager b = none ↔ b = false) ∧
    mk_connection_manager true = some ConnectionManager.init ∧
    ConnectionManager.init.connection = none ∧
    ConnectionManager.init.is_closing = false ∧
    ConnectionManager.init.back_off_connect_error = ExponentialBackOff.init ∧
    ConnectionManager.init.connection_lost_back_off_threshold = 5 ∧
    ConnectionManager.init.connection_lost_back_off_sleep_sec = 5 ∧
    ConnectionManager.init.connection_lost_last_time = none ∧
    ConnectionManager.init.connection_lost_sleep_before_reconnect = false := by
  refine ⟨?_, rfl, rfl, rfl, rfl, rfl, rfl, rfl, rfl⟩
  intro b
  cases b <;> simp [mk_connection_manager]

/-- Claim C6: on every unexpected disconnect, the recent-disconnect flag
becomes true exactly when a previous disconnect timestamp exists and the
elapsed time since it is strictly below the threshold (threshold and sleep
both defaulting to 5), and false otherwise; the stored timestamp is updated
unconditionally.  The hypothesis is the reachable-state invariant: the flag
is still false while no disconnect has ever been recorded. -/
theorem circuit_breaker_update (m : ConnectionManager) (now : Int)
    (hinv : m.connection_lost_last_time = none →
      m.connection_lost_sleep_before_reconnect = false) :
    (update_connection_lost_circuit_breaker m now).connection_lost_sleep_before_reconnect =
      (match m.connection_lost_last_time with
       | some last => decide (now - last < m.connection_lost_back_off_threshold)
       | none => false) ∧
    (update_connection_lost_circuit_breaker m now).connection_lost_last_time =
      some now ∧
    ConnectionManager.init.connection_lost_back_off_threshold = 5 ∧
    ConnectionManager.init.connection_lost_back_off_sleep_sec = 5 := by
  cases hl : m.connection_lost_last_time with
  | none =>
    refine ⟨?_, ?_, rfl, rfl⟩ <;>
      simp [update_connection_lost_circuit_breaker, hl, hinv hl]
  | some last =>
    refine ⟨?_, ?_, rfl, rfl⟩ <;>
      simp [update_connection_lost_circuit_breaker, hl]

theorem circuit_breaker_update_witness :
    (update_connection_lost_circuit_breaker
      (update_connection_lost_circuit_breaker ConnectionManager.init 0)
      2).connection_lost_sleep_before_reconnect = true ∧
    (update_connection_lost_circuit_breaker
      (update_connection_lost_circuit_breaker ConnectionManager.init 0)
      10).connection_lost_sleep_before_reconnect = false := by
  constructor
  · exact ((circuit_breaker_update
      (update_connection_lost_circuit_breaker ConnectionManager.init 0) 2
      (by decide)).1).trans (by decide)
  · exact ((circuit_breaker_update
      (update_connection_lost_circuit_breaker ConnectionManager.init 0) 10
      (by decide)).1).trans (by decide)

/-- Claim C7: a cancellation raised during the back-off sleep or while
awaiting the factory propagates out of a try_connect call, leaving the
stored connection null and the connect-error back-off untouched (so reset is
never called on that path); any other factory exception is swallowed, the
pending connection is cleared to null and failure is recorded exactly
once. -/
theorem try_connect_cancellation_and_failure (m : ConnectionManager)
    (env : TryConnectEnv) (h : m.connection = none) :
    (0 < get_back_off_time m ∧ env.cancel_during_sleep = true →
      try_connect m env = (m, true)) ∧
    (¬ (0 < get_back_off_time m ∧ env.cancel_during_sleep = true) →
      m.is_closing = false → env.factory = FactoryOutcome.cancelled →
      try_connect m env = (m, true)) ∧
    ((try_connect m env).2 = true →
      (try_connect m env).1.connection = none ∧
      (try_connect m env).1.back_off_connect_error = m.back_off_connect_error) ∧
    (¬ (0 < get_back_off_time m ∧ env.cancel_during_sleep = true) →
      m.is_closing = false → env.factory = FactoryOutcome.failed →
      try_connect m env =
        ({ m with
            connection := none
            back_off_connect_error := m.back_off_connect_error.failure }, false)) := by
  refine ⟨?_, ?_, ?_, ?_⟩
  · intro hc
    simp [try_connect, hc]
  · intro hnc hcl hf
    simp [try_connect, hnc, hcl, hf]
  · intro htrue
    by_cases hc : 0 < get_back_off_time m ∧ env.cancel_during_sleep = true
    · simp [try_connect, hc, h]
    · by_cases hcl : m.is_closing
      · simp [try_connect, hc, hcl] at htrue
      · cases hf : env.factory with
        | ok c => simp [try_connect, hc, hcl, hf] at htrue
        | cancelled => simp [try_connect, hc, hcl, hf, h]
        | failed => simp [try_connect, hc, hcl, hf] at htrue
  · intro hnc hcl hf
    simp [try_connect, hnc, hcl, hf]

theorem try_connect_cancellation_and_failure_witness :
    (0 < get_back_off_time manager_one_failure ∧ true = true) ∧
    try_connect manager_one_failure
      { cancel_during_sleep := true, factory := FactoryOutcome.ok 0 } =
      (manager_one_failure, true) ∧
    try_connect ConnectionManager.init
      { cancel_during_sleep := false, factory := FactoryOutcome.failed } =
      ({ ConnectionManager.init with
          connection := none
          back_off_connect_error :=
            ConnectionManager.init.back_off_connect_error.failure }, false) := by
  refine ⟨by decide, ?_, ?_⟩
  · exact (try_connect_cancellation_and_failure manager_one_failure
      { cancel_during_sleep := true, factory := FactoryOutcome.ok 0 } rfl).1
      (by decide)
  · exact (try_connect_cancellation_and_failure ConnectionManager.init
      { cancel_during_sleep := false, factory := FactoryOutcome.failed } rfl).2.2.2
      (by decide) rfl rfl

/-- Claim C8: a single connection_lost invocation on a protocol whose done
future is not yet set never lets an exception escape: the transport close is
attempted when a transport is present, a raising close is swallowed (and
then the transport reference is kept, since the clearing statement was
skipped), and the done future is completed at the end of the call. -/
theorem connection_lost_never_propagates (s : ProtocolState) (exc : Bool)
    (h : s.done = none) :
    ∃ s2, connection_lost s exc = some s2 ∧ s2.done = some () ∧
      (∀ t, s.transport = some t → t.close_raises = false → s2.transport = none) ∧
      (∀ t, s.transport = some t → t.close_raises = true → s2.transport = some t) ∧
      (s.transport = none → s2.transport = none) := by
  cases ht : s.transport with
  | none =>
    refine ⟨{ s with done := some () }, ?_, rfl, ?_, ?_, fun _ => ht⟩
    · simp [connection_lost, ht, h]
    · intro t hts _; cases hts
    · intro t hts _; cases hts
  | some t =>
    by_cases hr : t.close_raises
    · refine ⟨{ s with done := some () }, ?_, rfl, ?_, ?_, ?_⟩
      · simp [connection_lost, ht, hr, h]
      · intro t2 hts hf
        cases hts
        simp [hr] at hf
      · intro t2 hts _
        cases hts
        exact ht
      · intro hn; cases hn
    · refine ⟨{ s with transport := none, done := some () }, ?_, rfl, ?_, ?_, ?_⟩
      · simp [connection_lost, ht, hr, h]
      · intro t2 _ _; rfl
      · intro t2 hts hf
        cases hts
        simp [hf] at hr
      · intro hn; cases hn

theorem connection_lost_never_propagates_witness :
    ∃ s2, connection_lost
      { transport := some { close_raises := true }, done := none } true = some s2 ∧
      s2.done = some () ∧ s2.transport = some { close_raises := true } := by
  obtain ⟨s2, h1, h2, _, h4, _⟩ := connection_lost_never_propagates
    { transport := some { close_raises := true }, done := none } true rfl
  exact ⟨s2, h1, h2, h4 { close_raises := true } rfl rfl⟩

/-! ## Probing lemmas for data_received -/

theorem probe_readers_outside (data : List Nat) :
    ∀ idxs readers j, j ∉ idxs →
      (probe data readers idxs).1.get? j = readers.get? j := by
  intro idxs
  induction idxs with
  | nil => intro readers j _; rfl
  | cons i rest ih =>
    intro readers j hj
    have hji : j ≠ i := fun hh => hj (hh ▸ List.mem_cons_self i rest)
    have hjr : j ∉ rest := fun hh => hj (List.mem_cons_of_mem _ hh)
    cases hg : readers.get? i with
    | none =>
      have hred : probe data readers (i :: rest) = probe data readers rest := by
        simp only [probe]
        rw [hg]
      rw [hred]
      exact ih readers j hjr
    | some r =>
      by_cases hv : ((r.read data).2.any (fun m => m.is_valid)) = true
      · have hred : probe data readers (i :: rest) =
            (readers.set i (r.read data).1, some (i, (r.read data).2)) := by
          simp only [probe]
          rw [hg]
          dsimp only
          rw [if_pos hv]
        rw [hred]
        exact List.get?_set_ne _ _ (Ne.symm hji)
      · have hred : probe data readers (i :: rest) =
            probe data (readers.set i (r.read data).1) rest := by
          simp only [probe]
          rw [hg]
          dsimp only
          rw [if_neg hv]
        rw [hred, ih _ j hjr]
        exact List.get?_set_ne _ _ (Ne.symm hji)

theorem probe_none_spec (data : List Nat) :
    ∀ idxs readers, idxs.Nodup →
      (probe data readers idxs).2 = none →
      ∀ i ∈ idxs, ∀ r, readers.get? i = some r →
        (probe data readers idxs).1.get? i = some (r.read data).1 ∧
        (r.read data).2.any (fun m => m.is_valid) = false := by
  intro idxs
  induction idxs with
  | nil => intro readers _ _ i hi; exact absurd hi (List.not_mem_nil i)
  | cons a rest ih =>
    intro readers hnd hnone i hi r hr
    obtain ⟨ha, hndr⟩ := List.nodup_cons.mp hnd
    cases hg : readers.get? a with
    | none =>
      have hred : probe data readers (a :: rest) = probe data readers rest := by
        simp only [probe]
        rw [hg]
      rw [hred] at hnone ⊢
      rcases List.mem_cons.mp hi with rfl | hir
      · rw [hg] at hr; cases hr
      · exact ih readers hndr hnone i hir r hr
    | some ra =>
      by_cases hv : ((ra.read data).2.any (fun m => m.is_valid)) = true
      · have hwin : (probe data readers (a :: rest)).2 = some (a, (ra.read data).2) := by
          have hred : probe data readers (a :: rest) =
              (readers.set a (ra.read data).1, some (a, (ra.read data).2)) := by
            simp only [probe]
            rw [hg]
            dsimp only
            rw [if_pos hv]
          rw [hred]
        rw [hwin] at hnone; cases hnone
      · have hred : probe data readers (a :: rest) =
            probe data (readers.set a (ra.read data).1) rest := by
          simp only [probe]
          rw [hg]
          dsimp only
          rw [if_neg hv]
        rw [hred] at hnone ⊢
        rcases List.mem_cons.mp hi with rfl | hir
        · rw [hg] at hr
          cases hr
          constructor
          · rw [probe_readers_outside data rest _ i ha, List.get?_set_eq, hg]
            rfl
          · simpa using hv
        · have hia : i ≠ a := fun hh => ha (hh ▸ hir)
          have hr1 : (readers.set a (ra.read data).1).get? i = some r := by
            rw [List.get?_set_ne _ _ (Ne.symm hia)]; exact hr
          exact ih _ hndr hnone i hir r hr1

theorem probe_some_spec (data : List Nat) :
    ∀ idxs readers i msgs, idxs.Nodup →
      (probe data readers idxs).2 = some (i, msgs) →
      ∃ l1 l2 r, idxs = l1 ++ i :: l2 ∧
        readers.get? i = some r ∧
        msgs = (r.read data).2 ∧
        (r.read data).2.any (fun m => m.is_valid) = true ∧
        (probe data readers idxs).1.get? i = some (r.read data).1 ∧
        (∀ j ∈ l1, ∀ rj, readers.get? j = some rj →
          (probe data readers idxs).1.get? j = some (rj.read data).1 ∧
          (rj.read data).2.any (fun m => m.is_valid) = false) ∧
        (∀ j ∈ l2, (probe data readers idxs).1.get? j = readers.get? j) := by
  intro idxs
  induction idxs with
  | nil =>
    intro readers i msgs _ hsome
    cases hsome
  | cons a rest ih =>
    intro readers i msgs hnd hsome
    obtain ⟨ha, hndr⟩ := List.nodup_cons.mp hnd
    cases hg : readers.get? a with
    | none =>
      have hred : probe data readers (a :: rest) = probe data readers rest := by
        simp only [probe]
        rw [hg]
      rw [hred] at hsome ⊢
      obtain ⟨l1, l2, r, he, hr, hm, hv, hres, hl1, hunch⟩ :=
        ih readers i msgs hndr hsome
      refine ⟨a :: l1, l2, r, by rw [he]; rfl, hr, hm, hv, hres, ?_, hunch⟩
      intro j hj rj hrj
      rcases List.mem_cons.mp hj with rfl | hjl1
      · rw [hg] at hrj; cases hrj
      · exact hl1 j hjl1 rj hrj
    | some ra =>
      by_cases hv : ((ra.read data).2.any (fun m => m.is_valid)) = true
      · have hred : probe data readers (a :: rest) =
            (readers.set a (ra.read data).1, some (a, (ra.read data).2)) := by
          simp only [probe]
          rw [hg]
          dsimp only
          rw [if_pos hv]
        rw [hred] at hsome ⊢
        have hpair : a = i ∧ (ra.read data).2 = msgs := by
          have hh := Option.some.inj hsome
          exact ⟨congrArg Prod.fst hh, congrArg Prod.snd hh⟩
        obtain ⟨rfl, rfl⟩ := hpair
        refine ⟨[], rest, ra, rfl, hg, rfl, hv, ?_, ?_, ?_⟩
        · rw [List.get?_set_eq, hg]
          rfl
        · intro j hj
          exact absurd hj (List.not_mem_nil j)
        · intro j hj
          have hja : a ≠ j := fun hh => ha (hh ▸ hj)
          exact List.get?_set_ne _ _ hja
      · have hred : probe data readers (a :: rest) =
            probe data (readers.set a (ra.read data).1) rest := by
          simp only [probe]
          rw [hg]
          dsimp only
          rw [if_neg hv]
        rw [hred] at hsome ⊢
        obtain ⟨l1, l2, r, he, hr, hm, hvv, hres, hl1, hunch⟩ :=
          ih _ i msgs hndr hsome
        have hia : i ≠ a := by
          intro hh
          subst hh
          exact ha (he ▸ List.mem_append_right l1 (List.mem_cons_self i l2))
        refine ⟨a :: l1, l2, r, by rw [he]; rfl, ?_, hm, hvv, hres, ?_, ?_⟩
        · rw [List.get?_set_ne _ _ (Ne.symm hia)] at hr; exact hr
        · intro j hj rj hrj
          rcases List.mem_cons.mp hj with rfl | hjl1
          · obtain rfl : rj = ra := by
              rw [hg] at hrj
              exact (Option.some.inj hrj).symm
            constructor
            · rw [probe_readers_outside data rest _ j ha, List.get?_set_eq, hg]
              rfl
            · simpa using hv
          · have hjrest : j ∈ rest := by
              rw [he]
              exact List.mem_append_left _ hjl1
            have hja : j ≠ a := fun hh => ha (hh ▸ hjrest)
            have hrj1 : (readers.set a (ra.read data).1).get? j = some rj := by
              rw [List.get?_set_ne _ _ (Ne.symm hja)]
              exact hrj
            exact hl1 j hjl1 rj hrj1
        · intro j hj
          have hjrest : j ∈ rest :=
            he ▸ List.mem_append_right l1 (List.mem_cons_of_mem _ hj)
          have hja : j ≠ a := fun hh => ha (hh ▸ hjrest)
          rw [hunch j hj, List.get?_set_ne _ _ (Ne.symm hja)]

theorem data_received_committed (s2 : DemuxState) (d2 : List Nat) (i : Nat)
    (hs : s2.selected_reader = some i) :
    (data_received s2 d2).1.selected_reader = some i ∧
    (data_received s2 d2).1.reader_candidates = s2.reader_candidates ∧
    (∀ j, j ≠ i → (data_received s2 d2).1.readers.get? j = s2.readers.get? j) ∧
    (∀ r2, s2.readers.get? i = some r2 →
      (data_received s2 d2).2 = (r2.read d2).2) := by
  cases hg : s2.readers.get? i with
  | none =>
    have hred : data_received s2 d2 = (s2, []) := by
      simp only [data_received]
      rw [hs]
      dsimp only
      rw [hg]
    rw [hred]
    exact ⟨hs, rfl, fun j _ => rfl, fun r2 hr2 => by cases hr2⟩
  | some r =>
    have hred : data_received s2 d2 =
        ({ s2 with readers := s2.readers.set i (r.read d2).1 }, (r.read d2).2) := by
      simp only [data_received]
      rw [hs]
      dsimp only
      rw [hg]
    rw [hred]
    refine ⟨hs, rfl, ?_, ?_⟩
    · intro j hj
      exact List.get?_set_ne _ _ (Ne.symm hj)
    · intro r2 hr2
      cases hr2
      rfl

theorem run_chunks_committed (i : Nat) (ds : List (List Nat)) :
    ∀ s, s.selected_reader = some i →
      (run_chunks s ds).1.selected_reader = some i ∧
      (run_chunks s ds).1.reader_candidates = s.reader_candidates := by
  induction ds with
  | nil => intro s hs; exact ⟨hs, rfl⟩
  | cons d ds ih =>
    intro s hs
    obtain ⟨h1, h2, _, _⟩ := data_received_committed s d i hs
    obtain ⟨h3, h4⟩ := ih _ h1
    constructor
    · show (run_chunks s (d :: ds)).1.selected_reader = some i
      simp only [run_chunks]
      exact h3
    · show (run_chunks s (d :: ds)).1.reader_candidates = s.reader_candidates
      simp only [run_chunks]
      exact h4.trans h2

/-- Claim C1 is refuted at this concrete input: while probing with two
remaining candidates, the first candidate extracts a valid message from the
chunk, the protocol selects it, and the second remaining candidate is never
fed that chunk: its consumed-chunk history stays empty instead of containing
the chunk. -/
theorem probing_skips_later_candidates_cex :
    (data_received demux_two_candidates [1]).1.selected_reader = some 0 ∧
    ((data_received demux_two_candidates [1]).1.readers.get? 1).map MeterReader.hist
      = some [] ∧
    ¬ ((data_received demux_two_candidates [1]).1.readers.get? 1).map MeterReader.hist
      = some [[1]] := by
  refine ⟨rfl, rfl, ?_⟩
  intro h
  have h2 : some ([] : List (List Nat)) = some [[1]] := by
    calc some ([] : List (List Nat))
        = ((data_received demux_two_candidates [1]).1.readers.get? 1).map
            MeterReader.hist := rfl
      _ = some [[1]] := h
  cases h2

/-- Claim C1 (amended): while no reader has been selected, an incoming chunk
is fed to the remaining reader candidates in order only until the first
candidate one of whose extracted messages reports validity true: every
candidate before the winner received the chunk (its state advanced by that
read) and extracted no valid message from it, the winner received the chunk
and extracted a valid message, and candidates after the winner do not
receive the chunk.  When no candidate extracts a valid message from the
chunk, the chunk is fed to every remaining candidate and none is
selected. -/
theorem probing_feeds_in_order_until_winner (s : DemuxState) (d : List Nat)
    (hsel : s.selected_reader = none) (hnd : s.reader_candidates.Nodup) :
    ((data_received s d).1.selected_reader = none →
      ∀ i ∈ s.reader_candidates, ∀ r, s.readers.get? i = some r →
        (data_received s d).1.readers.get? i = some (r.read d).1 ∧
        (r.read d).2.any (fun m => m.is_valid) = false) ∧
    (∀ i, (data_received s d).1.selected_reader = some i →
      ∃ l1 l2 r, s.reader_candidates = l1 ++ i :: l2 ∧
        s.readers.get? i = some r ∧
        (r.read d).2.any (fun m => m.is_valid) = true ∧
        (data_received s d).1.readers.get? i = some (r.read d).1 ∧
        (∀ j ∈ l1, ∀ rj, s.readers.get? j = some rj →
          (data_received s d).1.readers.get? j = some (rj.read d).1 ∧
          (rj.read d).2.any (fun m => m.is_valid) = false) ∧
        (∀ j ∈ l2, (data_received s d).1.readers.get? j = s.readers.get? j)) := by
  cases hp : (probe d s.readers s.reader_candidates).2 with
  | none =>
    have hred : data_received s d =
        ({ s with readers := (probe d s.readers s.reader_candidates).1 }, []) := by
      simp only [data_received]
      rw [hsel]
      dsimp only
      rw [hp]
    constructor
    · intro _ i hi r hr
      have hh := probe_none_spec d s.reader_candidates s.readers hnd hp i hi r hr
      rw [hred]
      exact hh
    · intro i hwin
      rw [hred] at hwin
      have hcontra : s.selected_reader = some i := hwin
      rw [hsel] at hcontra
      cases hcontra
  | some im =>
    obtain ⟨w, msgs⟩ := im
    have hred : data_received s d =
        ({ readers := (probe d s.readers s.reader_candidates).1,
           reader_candidates := [], selected_reader := some w }, msgs) := by
      simp only [data_received]
      rw [hsel]
      dsimp only
      rw [hp]
    constructor
    · intro hnone
      rw [hred] at hnone
      cases hnone
    · intro i hwin
      rw [hred] at hwin
      obtain rfl : w = i := Option.some.inj hwin
      obtain ⟨l1, l2, r, he, hr, _, hv, hres, hl1, hunch⟩ :=
        probe_some_spec d s.reader_candidates s.readers w msgs hnd hp
      refine ⟨l1, l2, r, he, hr, hv, ?_, ?_, ?_⟩
      · rw [hred]
        exact hres
      · intro j hj rj hrj
        rw [hred]
        exact hl1 j hj rj hrj
      · intro j hj
        rw [hred]
        exact hunch j hj

theorem probing_feeds_in_order_until_winner_witness :
    ∃ l1 l2 r, demux_two_candidates.reader_candidates = l1 ++ 0 :: l2 ∧
      demux_two_candidates.readers.get? 0 = some r ∧
      ((r.read [1]).2.any (fun m => m.is_valid)) = true ∧
      (data_received demux_two_candidates [1]).1.readers.get? 0
        = some (r.read [1]).1 ∧
      (∀ j ∈ l1, ∀ rj, demux_two_candidates.readers.get? j = some rj →
        (data_received demux_two_candidates [1]).1.readers.get? j
          = some (rj.read [1]).1 ∧
        (rj.read [1]).2.any (fun m => m.is_valid) = false) ∧
      (∀ j ∈ l2, (data_received demux_two_candidates [1]).1.readers.get? j =
        demux_two_candidates.readers.get? j) :=
  (probing_feeds_in_order_until_winner demux_two_candidates [1] rfl
    (by decide)).2 0 (by decide)

/-- Claim C2: when a candidate wins during probing, all other candidates are
discarded, every message the winner extracted from the triggering chunk is
forwarded (not only the valid message that triggered selection), and every
subsequent chunk is routed exclusively through the winning reader: the
selection and the empty candidate list persist over any further chunk
sequence, other readers are never touched again, and each later chunk's
emitted messages are exactly the selected reader's read output. -/
theorem winner_commit_and_exclusive_routing (s : DemuxState) (d : List Nat)
    (i : Nat) (hnd : s.reader_candidates.Nodup) (hsel : s.selected_reader = none)
    (hwin : (data_received s d).1.selected_reader = some i) :
    (data_received s d).1.reader_candidates = [] ∧
    (∃ r, s.readers.get? i = some r ∧ (data_received s d).2 = (r.read d).2) ∧
    (∀ ds, (run_chunks (data_received s d).1 ds).1.selected_reader = some i ∧
      (run_chunks (data_received s d).1 ds).1.reader_candidates = []) ∧
    (∀ s2 d2 j, s2.selected_reader = some i → j ≠ i →
      (data_received s2 d2).1.readers.get? j = s2.readers.get? j) ∧
    (∀ s2 d2 r2, s2.selected_reader = some i → s2.readers.get? i = some r2 →
      (data_received s2 d2).2 = (r2.read d2).2) := by
  cases hp : (probe d s.readers s.reader_candidates).2 with
  | none =>
    have hred : data_received s d =
        ({ s with readers := (probe d s.readers s.reader_candidates).1 }, []) := by
      simp only [data_received]
      rw [hsel]
      dsimp only
      rw [hp]
    rw [hred] at hwin
    have hcontra : s.selected_reader = some i := hwin
    rw [hsel] at hcontra
    cases hcontra
  | some im =>
    obtain ⟨w, msgs⟩ := im
    have hred : data_received s d =
        ({ readers := (probe d s.readers s.reader_candidates).1,
           reader_candidates := [], selected_reader := some w }, msgs) := by
      simp only [data_received]
      rw [hsel]
      dsimp only
      rw [hp]
    have hwi : w = i := by
      rw [hred] at hwin
      exact Option.some.inj hwin
    obtain rfl := hwi
    obtain ⟨l1, l2, r, he, hr, hm, hv, hres, _, hunch⟩ :=
      probe_some_spec d s.reader_candidates s.readers w msgs hnd hp
    refine ⟨?_, ⟨r, hr, ?_⟩, ?_, ?_, ?_⟩
    · rw [hred]
    · rw [hred]
      exact hm
    · intro ds
      obtain ⟨ha, hb⟩ := run_chunks_committed w ds (data_received s d).1 hwin
      refine ⟨ha, hb.trans ?_⟩
      rw [hred]
    · intro s2 d2 j hs2 hj
      exact (data_received_committed s2 d2 w hs2).2.2.1 j hj
    · intro s2 d2 r2 hs2 hr2
      exact (data_received_committed s2 d2 w hs2).2.2.2 r2 hr2

theorem winner_commit_and_exclusive_routing_witness :
    (data_received demux_two_candidates [1]).1.reader_candidates = [] ∧
    (∃ r, demux_two_candidates.readers.get? 0 = some r ∧
      (data_received demux_two_candidates [1]).2 = (r.read [1]).2) ∧
    (∀ ds,
      (run_chunks (data_received demux_two_candidates [1]).1 ds).1.selected_reader
        = some 0 ∧
      (run_chunks (data_received demux_two_candidates [1]).1 ds).1.reader_candidates
        = []) := by
  obtain ⟨h1, h2, h3, _, _⟩ := winner_commit_and_exclusive_routing
    demux_two_candidates [1] 0 (by decide) rfl (by decide)
  exact ⟨h1, h2, h3⟩

end MeterConnection
